import Mathlib

/-!
Shallow embedding of `src/banking_project/static/js/script.js`, the browser-side
presentation layer of a banking back-office application.  The embedding covers:

* the client-side export queue of `ReportSystem`
  (`handleExport`, `processExportQueue`, `processExportJob`, `downloadExportResult`);
* the fetch-based loaders (`loadReportParameters`, `previewReport`,
  `loadDashboardData`, `loadTemplate`) together with their try/catch error handling;
* the DOM table utilities `filterTable` and `sortTable`;
* `validateForm` / `isValidEmail` and `updateNotificationCount`.

Mutation of DOM and of job objects is modelled by explicit state passing; the
observable side effects (status writes, progress writes, renders, delays,
console logging, fetch requests, alerts) are recorded in an event trace.
Asynchronous callbacks are modelled by the sequential schedule in which every
`handleExport` runs its `processExportQueue` drain to completion before the next
user action, which is the schedule produced by the browser when user actions do
not overlap a running drain.
-/

/-- The four status strings ever assigned to an export job in the source
(`queued` on creation, `processing` and `completed` in `processExportJob`,
`failed` in the catch block of `processExportQueue`). -/
inductive JobStatus
  | queued
  | processing
  | completed
  | failed
deriving DecidableEq, Repr

/-- An element of `this.exportQueue`, as built in `handleExport`:
`{ id: 'export-' + Date.now(), type: formData.data_type, format: formData.format,
status: 'queued', progress: 0 }`. -/
structure ExportJob where
  id : String
  dataType : String
  format : String
  status : JobStatus
  progress : Nat
deriving DecidableEq, Repr

/-- Observable side effects of the script, recorded as an event trace.
`setStatus`/`setProgress` are the assignments to `job.status`/`job.progress`;
`renderQueue` is a call to `renderExportQueue`; `delayMs` is `await this.delay(ms)`;
`fetchReq` is a `fetch(url)` request; the remaining constructors record console
output, the loading indicators, alerts, and the render helpers. -/
inductive UIEvent
  | createJob (id : String) (s : JobStatus)
  | setStatus (id : String) (s : JobStatus)
  | setProgress (id : String) (p : Nat)
  | renderQueue
  | delayMs (n : Nat)
  | consoleLog (msg : String)
  | consoleError (msg : String)
  | fetchReq (url : String)
  | showLoading (msg : String)
  | hideLoading
  | showDashboardLoading
  | hideDashboardLoading
  | showError (msg : String)
  | showSuccess (msg : String)
  | renderParameters (payload : String)
  | renderPreview (payload : String)
  | renderDashboard (payload : String)
  | fillForm (payload : String)
deriving DecidableEq, Repr

/-- `downloadExportResult(job)`: logs
`Скачивание экспорта: ${job.type}.${job.format}` to the console and does nothing
else (in particular it performs no fetch). -/
def downloadExportResult (j : ExportJob) : List UIEvent :=
  [.consoleLog ("Скачивание экспорта: " ++ j.dataType ++ "." ++ j.format)]

/-- `processExportJob(job)` on its normal (non-throwing) path: sets
`job.status = 'processing'`, renders, then for `progress = 0, 10, ..., 100`
sets `job.progress`, renders and awaits a 500 ms delay, then sets
`job.status = 'completed'`, renders, and calls `downloadExportResult`.
Returns the final job value and the emitted event trace. -/
def processExportJob (j : ExportJob) : ExportJob × List UIEvent :=
  ({ j with status := .completed, progress := 100 },
   [.setStatus j.id .processing, .renderQueue] ++
     ((List.range 11).flatMap fun i =>
       [.setProgress j.id (10 * i), .renderQueue, .delayMs 500]) ++
     [.setStatus j.id .completed, .renderQueue] ++
     downloadExportResult j)

/-- Events emitted by a run of `processExportJob` that throws: the status is
set to `processing` and the first `m + 1` progress steps run; the awaited delay
of step `m` rejects, aborting the loop.  (`processExportJob` itself contains no
`throw`; the exception comes from the environment, e.g. a rejected promise, and
is caught by the try/catch in `processExportQueue`.) -/
def failEvents (j : ExportJob) (m : Nat) : List UIEvent :=
  [.setStatus j.id .processing, .renderQueue] ++
    ((List.range (m + 1)).flatMap fun i =>
      [.setProgress j.id (10 * i), .renderQueue, .delayMs 500])

/-- Result of the `while` loop of `processExportQueue`: the queue left behind,
the emitted events, and the jobs on which `processExportJob` was invoked
(in invocation order). -/
structure DrainOut where
  queue : List ExportJob
  events : List UIEvent
  attempts : List ExportJob
deriving DecidableEq, Repr

/-- The `while (this.exportQueue.length > 0)` loop of `processExportQueue`.
`exc j = none` means `await this.processExportJob(job)` resolves for head job
`j` (the job is then shifted off); `exc j = some k` means it rejects during
progress step `min k 10`, upon which the catch block logs the error, sets
`job.status = 'failed'`, renders and breaks, leaving the job in the queue. -/
def drainLoop (exc : ExportJob → Option Nat) : List ExportJob → DrainOut
  | [] => ⟨[], [], []⟩
  | j :: rest =>
    match exc j with
    | none =>
      let r := drainLoop exc rest
      ⟨r.queue, (processExportJob j).2 ++ r.events, j :: r.attempts⟩
    | some k =>
      let m := min k 10
      ⟨{ j with status := .failed, progress := 10 * m } :: rest,
       failEvents j m ++ [.consoleError "Ошибка экспорта:", .setStatus j.id .failed, .renderQueue],
       [j]⟩

/-- The mutable fields of `ReportSystem` relevant to the export queue. -/
structure RSState where
  exportQueue : List ExportJob
  isProcessing : Bool
deriving DecidableEq, Repr

/-- Result of an operation on a `ReportSystem`: the new state, the emitted
events, and the jobs passed to `processExportJob`. -/
structure RunResult where
  state : RSState
  events : List UIEvent
  attempts : List ExportJob
deriving DecidableEq, Repr

/-- `processExportQueue()`: returns immediately when `this.isProcessing` holds
or the queue is empty; otherwise sets `isProcessing = true`, drains the queue,
and finally sets `isProcessing = false`. -/
def processExportQueue (exc : ExportJob → Option Nat) (s : RSState) : RunResult :=
  if s.isProcessing || s.exportQueue.isEmpty then ⟨s, [], []⟩
  else
    let d := drainLoop exc s.exportQueue
    ⟨⟨d.queue, false⟩, d.events, d.attempts⟩

/-- `handleExport(event)`: builds a job with status `queued` and progress `0`
from the form data, pushes it onto `exportQueue` (`addToExportQueue`, which also
renders), and awaits `processExportQueue`. -/
def handleExport (exc : ExportJob → Option Nat) (id dataType format : String)
    (s : RSState) : RunResult :=
  let job : ExportJob := ⟨id, dataType, format, .queued, 0⟩
  let r := processExportQueue exc ⟨s.exportQueue ++ [job], s.isProcessing⟩
  ⟨r.state, .createJob id .queued :: .renderQueue :: r.events, r.attempts⟩

/-- A sequence of export-form submissions `(id, data_type, format)`, each
running `handleExport` to completion before the next. -/
def runScript (exc : ExportJob → Option Nat) :
    List (String × String × String) → RSState → RunResult
  | [], s => ⟨s, [], []⟩
  | (id, t, f) :: ops, s =>
    let r1 := handleExport exc id t f s
    let r2 := runScript exc ops r1.state
    ⟨r2.state, r1.events ++ r2.events, r1.attempts ++ r2.attempts⟩

/-- The status values written to the job identified by `id`: its creation
status followed by every assignment to its `status` field, in order. -/
def toStatusWrite (id : String) : UIEvent → Option JobStatus
  | .createJob i s => if i = id then some s else none
  | .setStatus i s => if i = id then some s else none
  | _ => none

/-- The sequence of statuses the job identified by `id` goes through. -/
def statusHistory (id : String) (evs : List UIEvent) : List JobStatus :=
  evs.filterMap (toStatusWrite id)

/-- All values assigned to some job's `progress` field. -/
def progressValues (evs : List UIEvent) : List Nat :=
  evs.filterMap fun e => match e with | .setProgress _ p => some p | _ => none

/-- All statuses assigned (not counting creation) in a trace. -/
def statusValues (evs : List UIEvent) : List JobStatus :=
  evs.filterMap fun e => match e with | .setStatus _ s => some s | _ => none

/-- All delay durations awaited in a trace. -/
def delayValues (evs : List UIEvent) : List Nat :=
  evs.filterMap fun e => match e with | .delayMs n => some n | _ => none

/-- All fetch requests in a trace. -/
def fetchUrls (evs : List UIEvent) : List String :=
  evs.filterMap fun e => match e with | .fetchReq u => some u | _ => none

/-- Number of fetch requests in a trace. -/
def fetchCount (evs : List UIEvent) : Nat := (fetchUrls evs).length

/-- The status transitions the code actually performs on a job:
`queued → processing` (start of `processExportJob`),
`processing → completed`, `processing → failed`, and — because a failed job is
left at the front of the queue and a later `processExportQueue` call picks it
up again — `failed → processing`. -/
def statusStep : JobStatus → JobStatus → Bool
  | .queued, .processing => true
  | .processing, .completed => true
  | .processing, .failed => true
  | .failed, .processing => true
  | _, _ => false

/-- The transition relation claimed by the specification:
`queued → processing → completed` or `queued → processing → failed` only. -/
def statusStepSpec : JobStatus → JobStatus → Bool
  | .queued, .processing => true
  | .processing, .completed => true
  | .processing, .failed => true
  | _, _ => false

/-- Queue contents at each `renderExportQueue` call while `processExportJob`
runs to completion on the head job. -/
def jobStates (j : ExportJob) : List ExportJob :=
  { j with status := .processing } ::
    ((List.range 11).map fun i => { j with status := .processing, progress := 10 * i }) ++
    [{ j with status := .completed, progress := 100 }]

/-- Queue contents at each `renderExportQueue` call when `processExportJob`
rejects during progress step `m` and the catch block marks the job failed. -/
def jobStatesFail (j : ExportJob) (m : Nat) : List ExportJob :=
  { j with status := .processing } ::
    ((List.range (m + 1)).map fun i => { j with status := .processing, progress := 10 * i }) ++
    [{ j with status := .failed, progress := 10 * m }]

/-- Snapshots of `this.exportQueue` observable during the drain loop: the state
on loop entry and the state at every `renderExportQueue` call. -/
def drainSnapshots (exc : ExportJob → Option Nat) : List ExportJob → List (List ExportJob)
  | [] => [[]]
  | j :: rest =>
    (j :: rest) ::
      (match exc j with
       | none => ((jobStates j).map (· :: rest)) ++ drainSnapshots exc rest
       | some k => (jobStatesFail j (min k 10)).map (· :: rest))

/-- A two-submission scenario: the first export job fails on its first attempt,
then a second submission is made. -/
def demoScript : List (String × String × String) :=
  [("export-1001", "clients", "csv"), ("export-1002", "transactions", "xlsx")]

/-- Failure oracle for `demoScript`: the first attempt at job `export-1001`
(while it is still `queued`) rejects immediately; every other attempt resolves. -/
def demoExc : ExportJob → Option Nat := fun j =>
  if j.id = "export-1001" ∧ j.status = .queued then some 0 else none

/-! ### Fetch-based loaders and their try/catch error handling

Each loader is a total function from the combined outcome of `await fetch(...)`
plus `await response.json()` (an `Except`: `.error e` models the fetch or the
JSON parsing throwing with message `e`) to `Except String (List UIEvent)`.
A `.error` result would model an exception escaping the method to its caller;
the catch block of each method returns normally, so each loader in fact always
returns `.ok`. -/

/-- `loadReportParameters(reportType)`. -/
def loadReportParameters (reportType : String) (fetched : Except String String) :
    Except String (List UIEvent) :=
  let pre : List UIEvent :=
    [.showLoading "Загрузка параметров...",
     .fetchReq ("/reports/api/parameters/" ++ reportType ++ "/")]
  match fetched with
  | .ok parameters => .ok (pre ++ [.renderParameters parameters, .hideLoading])
  | .error e =>
    .ok (pre ++ [.consoleError ("Ошибка загрузки параметров: " ++ e),
                 .showError "Не удалось загрузить параметры отчета", .hideLoading])

/-- `previewReport()` (the form data it posts is irrelevant to the trace shape). -/
def previewReport (fetched : Except String String) : Except String (List UIEvent) :=
  let pre : List UIEvent :=
    [.showLoading "Формирование предпросмотра...", .fetchReq "/reports/api/preview/"]
  match fetched with
  | .ok previewData => .ok (pre ++ [.renderPreview previewData, .hideLoading])
  | .error e =>
    .ok (pre ++ [.consoleError ("Ошибка предпросмотра: " ++ e),
                 .showError "Не удалось сформировать предпросмотр", .hideLoading])

/-- `loadDashboardData(filters)`. -/
def loadDashboardData (fetched : Except String String) : Except String (List UIEvent) :=
  let pre : List UIEvent := [.showDashboardLoading, .fetchReq "/reports/api/dashboard/"]
  match fetched with
  | .ok dashboardData => .ok (pre ++ [.renderDashboard dashboardData, .hideDashboardLoading])
  | .error e =>
    .ok (pre ++ [.consoleError ("Ошибка загрузки дашборда: " ++ e),
                 .showError "Не удалось загрузить данные дашборда", .hideDashboardLoading])

/-- `loadTemplate(templateId)` (no loading indicator is shown by this method). -/
def loadTemplate (templateId : Nat) (fetched : Except String String) :
    Except String (List UIEvent) :=
  let pre : List UIEvent := [.fetchReq ("/reports/api/templates/" ++ toString templateId ++ "/")]
  match fetched with
  | .ok template => .ok (pre ++ [.fillForm template, .showSuccess "Шаблон успешно загружен"])
  | .error e =>
    .ok (pre ++ [.consoleError ("Ошибка загрузки шаблона: " ++ e),
                 .showError "Не удалось загрузить шаблон"])

/-! ### Table filtering (`filterTable`) -/

/-- `String.prototype.toLowerCase()`, character by character. -/
def jsToLower (s : String) : String := ⟨s.data.map Char.toLower⟩

/-- Contiguous-sublist test on character lists, the semantics of
`String.prototype.includes`: the empty needle is contained in everything. -/
def listContainsSub : List Char → List Char → Bool
  | [], needle => needle.isEmpty
  | c :: t, needle => needle.isPrefixOf (c :: t) || listContainsSub t needle

/-- `haystack.includes(needle)` for JavaScript strings. -/
def stringIncludes (haystack needle : String) : Bool :=
  listContainsSub haystack.data needle.data

/-- `filterTable(searchInput)`: lowercases the search term, and for every tbody
row sets `row.style.display` to `''` when the lowercased row text contains the
term, and to `'none'` otherwise.  Rows are modelled by their `textContent`; the
result is the `display` value of each row. -/
def filterTable (searchValue : String) (rows : List String) : List String :=
  let searchTerm := jsToLower searchValue
  rows.map fun rowText => if stringIncludes (jsToLower rowText) searchTerm then "" else "none"

/-! ### Table sorting (`sortTable`) -/

/-- Token of the numeric-aware collation used by
`a.localeCompare(b, undefined, { numeric: true })`: maximal digit runs compare
by numeric value and sort before any non-digit character. -/
inductive NumTok
  | num (n : Nat)
  | ch (c : Char)
deriving DecidableEq, Repr

/-- Splits a character list into collation tokens, folding maximal digit runs
into their numeric value (`acc` carries the value of the run being read). -/
def tokenizeAux : List Char → Option Nat → List NumTok
  | [], none => []
  | [], some n => [.num n]
  | c :: rest, acc =>
    if c.isDigit then
      tokenizeAux rest (some ((acc.getD 0) * 10 + (c.toNat - 48)))
    else
      match acc with
      | none => .ch c :: tokenizeAux rest none
      | some n => .num n :: .ch c :: tokenizeAux rest none

/-- `String.prototype.trim()`: strips leading and trailing whitespace. -/
def jsTrim (s : String) : String :=
  ⟨((s.data.dropWhile Char.isWhitespace).reverse.dropWhile Char.isWhitespace).reverse⟩

/-- Strict order on collation tokens: numbers by value, numbers before
characters, characters by code point. -/
def tokLt : NumTok → NumTok → Bool
  | .num m, .num n => decide (m < n)
  | .num _, .ch _ => true
  | .ch _, .num _ => false
  | .ch c, .ch d => decide (c < d)

/-- Lexicographic strict order on token lists: the model of
`a.localeCompare(b, undefined, { numeric: true }) < 0`. -/
def keyLt : List NumTok → List NumTok → Bool
  | [], [] => false
  | [], _ :: _ => true
  | _ :: _, [] => false
  | a :: as, b :: bs => tokLt a b || (decide (a = b) && keyLt as bs)

/-- The sort key `sortTable` reads from a row: the trimmed text content of the
cell in the clicked column, tokenized for numeric-aware collation.  A row is
modelled by the list of its cells' text contents. -/
def rowKey (col : Nat) (row : List String) : List NumTok :=
  tokenizeAux (jsTrim (row.getD col "")).data none

/-- Comparator of the ascending sort (`aValue.localeCompare(bValue) <= 0`). -/
def rowLeAsc (col : Nat) (a b : List String) : Prop :=
  keyLt (rowKey col b) (rowKey col a) = false

/-- Comparator of the descending sort (`bValue.localeCompare(aValue) <= 0`). -/
def rowLeDesc (col : Nat) (a b : List String) : Prop :=
  keyLt (rowKey col a) (rowKey col b) = false

instance (col : Nat) : DecidableRel (rowLeAsc col) := fun _ _ =>
  inferInstanceAs (Decidable (_ = false))

instance (col : Nat) : DecidableRel (rowLeDesc col) := fun _ _ =>
  inferInstanceAs (Decidable (_ = false))

/-- The sortable table: its tbody rows (each a list of cell texts) and the
`sort-asc` / `sort-desc` classes of the clicked header. -/
structure TableState where
  rows : List (List String)
  sortedAsc : Bool
  sortedDesc : Bool
deriving DecidableEq, Repr

/-- `sortTable(header)` for the header of column `col`: reads
`isAsc = header.classList.contains('sort-asc')`, stably sorts the tbody rows by
the column's trimmed text (ascending when `isAsc` is false, descending when it
is true — `Array.prototype.sort` is stable), re-appends them, and finally
toggles `sort-asc` to `!isAsc` and `sort-desc` to `isAsc`.  The stable sort is
modelled by insertion sort, which places each element before the first later
element it compares `<= 0` against, as a stable JavaScript sort does. -/
def sortTableStep (col : Nat) (ts : TableState) : TableState :=
  let isAsc := ts.sortedAsc
  let rows' :=
    if isAsc then ts.rows.insertionSort (rowLeDesc col)
    else ts.rows.insertionSort (rowLeAsc col)
  { rows := rows', sortedAsc := !isAsc, sortedDesc := isAsc }

/-! ### Form validation (`validateForm`, `isValidEmail`) -/

/-- A form control as seen by `validateForm`: its `type` attribute, whether it
carries the `required` attribute, and its current value. -/
structure FormField where
  fieldType : String
  required : Bool
  value : String
deriving DecidableEq, Repr

/-- A character admissible in the classes `[^\s@]` of the email regex. -/
def isEmailCharOk (c : Char) : Bool := !c.isWhitespace && !(c = '@')

/-- `isValidEmail(email)`: whether `^[^\s@]+@[^\s@]+\.[^\s@]+$` matches.  The
string is split at its first `@`; it matches exactly when the part before it is
a nonempty run of non-space non-`@` characters, the part after it is such a run
as well (this excludes any second `@`), and the latter contains a `.` that is
neither its first nor its last character. -/
def isValidEmail (email : String) : Bool :=
  let cs := email.data
  let localPart := cs.takeWhile fun c => !(c = '@')
  match cs.dropWhile fun c => !(c = '@') with
  | [] => false
  | _ :: domain =>
    !localPart.isEmpty && localPart.all isEmailCharOk &&
      domain.all isEmailCharOk && ((domain.drop 1).dropLast.contains '.')

/-- The error messages `validateForm` appends below a field, one per failed
check, in source order (required, email, password). -/
def fieldMessages (f : FormField) : List String :=
  (if f.required && decide (jsTrim f.value = "") then
    ["Это поле обязательно для заполнения"] else []) ++
  (if decide (f.fieldType = "email") && !decide (f.value = "") && !isValidEmail f.value then
    ["Введите корректный email адрес"] else []) ++
  (if decide (f.fieldType = "password") && !decide (f.value = "") && decide (f.value.length < 6) then
    ["Пароль должен содержать не менее 6 символов"] else [])

/-- Whether `validateForm` leaves the field marked with the `is-invalid` class. -/
def fieldInvalid (f : FormField) : Bool := !(fieldMessages f).isEmpty

/-- `validateForm(form)`: the conjunction of the three passes of the source —
every `required` control has a value that is nonempty after trimming, every
`input[type=email]` with a (truthy, i.e. nonempty) value passes `isValidEmail`,
and every `input[type=password]` with a nonempty value has length at least 6. -/
def validateForm (fields : List FormField) : Bool :=
  ((fields.filter (·.required)).all fun f => !decide (jsTrim f.value = "")) &&
  ((fields.filter (·.fieldType = "email")).all fun f =>
    !(!decide (f.value = "") && !isValidEmail f.value)) &&
  ((fields.filter (·.fieldType = "password")).all fun f =>
    !(!decide (f.value = "") && decide (f.value.length < 6)))

/-! ### Notification badge (`updateNotificationCount`) -/

/-- The notification badge element: its text content and whether it carries the
`d-none` (hidden) class. -/
structure Badge where
  text : String
  hidden : Bool
deriving DecidableEq, Repr

/-- `updateNotificationCount(count)` when the badge element exists: for a
positive count the text becomes `'99+'` when the count exceeds 99 and the count
itself otherwise, and `d-none` is removed; for a non-positive count `d-none` is
added and the text is left unchanged. -/
def updateNotificationCount (count : Int) (badge : Badge) : Badge :=
  if count > 0 then
    { text := if count > 99 then "99+" else toString count, hidden := false }
  else
    { badge with hidden := true }

/-- Invariant of the `ReportSystem` export state between user actions: the
system is at rest, queued job ids are distinct, every queued job is `queued` or
`failed` with a progress that is a multiple of 10 at most 100, the last status
recorded for a queued job is its current status, and every job's recorded
status history follows the transition relation `statusStep`. -/
def SysInv (s : RSState) (evs : List UIEvent) : Prop :=
  s.isProcessing = false ∧
  (s.exportQueue.map (·.id)).Nodup ∧
  (∀ j ∈ s.exportQueue, (j.status = .queued ∨ j.status = .failed) ∧
    j.progress % 10 = 0 ∧ j.progress ≤ 100) ∧
  (∀ j ∈ s.exportQueue, (statusHistory j.id evs).getLast? = some j.status) ∧
  (∀ id, List.Chain' (fun a b => statusStep a b = true) (statusHistory id evs))

/-- What the specification asks of a single form control: required controls
are nonempty after trimming, email controls with a nonempty value match the
email regex, password controls with a nonempty value have length at least 6. -/
def fieldOk (f : FormField) : Prop :=
  (f.required = true → jsTrim f.value ≠ "") ∧
  (f.fieldType = "email" → f.value ≠ "" → isValidEmail f.value = true) ∧
  (f.fieldType = "password" → f.value ≠ "" → 6 ≤ f.value.length)

/-- Boolean form of `fieldOk`: the three checks of `validateForm` on one field. -/
def fieldOkB (f : FormField) : Bool :=
  (!(f.required && decide (jsTrim f.value = ""))) &&
  (!(decide (f.fieldType = "email") && !decide (f.value = "") && !isValidEmail f.value)) &&
  (!(decide (f.fieldType = "password") && !decide (f.value = "") && decide (f.value.length < 6)))

/-! ### Helper lemmas -/

/-- The empty needle is contained in every haystack (`''.includes` semantics). -/
theorem listContainsSub_nil (hay : List Char) : listContainsSub hay [] = true := by
  cases hay <;> simp [listContainsSub, List.isPrefixOf]

/-! ### C2: `processExportJob` simulates progress via fixed delays -/

/-- C2: for any job, `processExportJob` emits exactly the trace that first sets
status `processing`, then sets progress successively to 0, 10, ..., 100 (eleven
steps), each step followed by a render and a fixed 500 ms delay, then sets
status `completed` and runs `downloadExportResult`; the progress writes are
`[0, 10, ..., 100]`, the delays are eleven times 500 ms, the status writes are
exactly `processing` then `completed`, no fetch request occurs anywhere in the
trace, and `downloadExportResult` only logs to the console. -/
theorem processExportJob_fixed_delays (j : ExportJob) :
    (processExportJob j).1 = { j with status := .completed, progress := 100 } ∧
    (processExportJob j).2 =
      [.setStatus j.id .processing, .renderQueue] ++
        ((List.range 11).flatMap fun i =>
          [.setProgress j.id (10 * i), .renderQueue, .delayMs 500]) ++
        [.setStatus j.id .completed, .renderQueue,
         .consoleLog ("Скачивание экспорта: " ++ j.dataType ++ "." ++ j.format)] ∧
    progressValues (processExportJob j).2 = [0, 10, 20, 30, 40, 50, 60, 70, 80, 90, 100] ∧
    delayValues (processExportJob j).2 = List.replicate 11 500 ∧
    statusValues (processExportJob j).2 = [.processing, .completed] ∧
    fetchUrls (processExportJob j).2 = [] ∧
    downloadExportResult j =
      [.consoleLog ("Скачивание экспорта: " ++ j.dataType ++ "." ++ j.format)] :=
  ⟨rfl, rfl, rfl, rfl, rfl, rfl, rfl⟩

/-! ### C9: `updateNotificationCount` caps the badge at 99 -/

/-- C9: with a badge element present, a count above 99 displays `99+` and shows
the badge, a count between 1 and 99 displays the count itself and shows the
badge, and a count of 0 or less hides the badge (`d-none` added) leaving its
text unchanged. -/
theorem updateNotificationCount_caps (c : Int) (b : Badge) :
    (c > 99 → updateNotificationCount c b = ⟨"99+", false⟩) ∧
    (1 ≤ c → c ≤ 99 → updateNotificationCount c b = ⟨toString c, false⟩) ∧
    (c ≤ 0 → updateNotificationCount c b = { b with hidden := true }) := by
  refine ⟨fun h => ?_, fun h1 h2 => ?_, fun h => ?_⟩
  · have hpos : c > 0 := by omega
    simp [updateNotificationCount, hpos, h]
  · have hpos : c > 0 := by omega
    have hle : ¬(c > 99) := by omega
    simp [updateNotificationCount, hpos, hle]
  · have hpos : ¬(c > 0) := by omega
    simp [updateNotificationCount, hpos]

/-- Concrete instances of C9 at counts 150, 42 and 0. -/
theorem updateNotificationCount_caps_witness :
    updateNotificationCount 150 ⟨"7", false⟩ = ⟨"99+", false⟩ ∧
    updateNotificationCount 42 ⟨"7", false⟩ = ⟨toString (42 : Int), false⟩ ∧
    updateNotificationCount 0 ⟨"7", false⟩ = ⟨"7", true⟩ :=
  ⟨(updateNotificationCount_caps 150 ⟨"7", false⟩).1 (by decide),
   (updateNotificationCount_caps 42 ⟨"7", false⟩).2.1 (by decide) (by decide),
   (updateNotificationCount_caps 0 ⟨"7", false⟩).2.2 (by decide)⟩

/-! ### C6: `filterTable` is a case-insensitive substring filter -/

/-- C6: after `filterTable` runs with search term `s`, the row at index `i` is
visible (display not set to `none`, i.e. set to the empty string) exactly when
its lowercased text contains the lowercased term, and the empty search term
leaves every row visible. -/
theorem filterTable_substring (s : String) (rows : List String) (i : Nat)
    (h : i < rows.length) :
    ((filterTable s rows).getD i "none" = "" ↔
      stringIncludes (jsToLower (rows.getD i "")) (jsToLower s) = true) ∧
    (s = "" → ∀ d ∈ filterTable s rows, d = "") := by
  constructor
  · unfold filterTable
    rw [List.getD_eq_getElem?_getD, List.getElem?_map, List.getElem?_eq_getElem h,
      List.getD_eq_getElem?_getD, List.getElem?_eq_getElem h]
    by_cases hc : stringIncludes (jsToLower rows[i]) (jsToLower s) = true
    · simp [hc]
    · simp [hc]
  · rintro rfl d hd
    unfold filterTable at hd
    obtain ⟨t, _, rfl⟩ := List.mem_map.1 hd
    have : stringIncludes (jsToLower t) (jsToLower "") = true := by
      show listContainsSub _ _ = true
      exact listContainsSub_nil _
    simp [this]

/-- Concrete instance of C6: searching `ALI` in a two-row table shows the row
containing `alice` and hides the other; the empty search shows everything. -/
theorem filterTable_substring_witness :
    ((filterTable "ALI" ["Alice Smith", "Bob"]).getD 0 "none" = "" ↔
      stringIncludes (jsToLower "Alice Smith") (jsToLower "ALI") = true) ∧
    ((filterTable "ALI" ["Alice Smith", "Bob"]).getD 0 "none" = "") :=
  ⟨(filterTable_substring "ALI" ["Alice Smith", "Bob"] 0 (by decide)).1
     |>.trans (by rw [show ((["Alice Smith", "Bob"] : List String).getD 0 "")
                        = "Alice Smith" from rfl]),
   by decide⟩

/-! ### C5: failure handling of the fetch-based loaders is catch-and-alert only -/

/-- C5: each fetch-based loader (`loadReportParameters`, `previewReport`,
`loadDashboardData`, `loadTemplate`) returns normally for every fetch/JSON
outcome (the exception never escapes the method), issues exactly one fetch
request (no retry), and on a thrown fetch/JSON error displays its error message
via `showError` and hides whichever loading indicator it had shown. -/
theorem fetch_failures_caught (rt err : String) (tid : Nat) :
    (∀ o : Except String String, ∃ evs,
      loadReportParameters rt o = .ok evs ∧ fetchCount evs = 1) ∧
    (∀ o : Except String String, ∃ evs,
      previewReport o = .ok evs ∧ fetchCount evs = 1) ∧
    (∀ o : Except String String, ∃ evs,
      loadDashboardData o = .ok evs ∧ fetchCount evs = 1) ∧
    (∀ o : Except String String, ∃ evs,
      loadTemplate tid o = .ok evs ∧ fetchCount evs = 1) ∧
    (∃ evs, loadReportParameters rt (.error err) = .ok evs ∧
      UIEvent.showError "Не удалось загрузить параметры отчета" ∈ evs ∧
      UIEvent.showLoading "Загрузка параметров..." ∈ evs ∧ UIEvent.hideLoading ∈ evs) ∧
    (∃ evs, previewReport (.error err) = .ok evs ∧
      UIEvent.showError "Не удалось сформировать предпросмотр" ∈ evs ∧
      UIEvent.showLoading "Формирование предпросмотра..." ∈ evs ∧ UIEvent.hideLoading ∈ evs) ∧
    (∃ evs, loadDashboardData (.error err) = .ok evs ∧
      UIEvent.showError "Не удалось загрузить данные дашборда" ∈ evs ∧
      UIEvent.showDashboardLoading ∈ evs ∧ UIEvent.hideDashboardLoading ∈ evs) ∧
    (∃ evs, loadTemplate tid (.error err) = .ok evs ∧
      UIEvent.showError "Не удалось загрузить шаблон" ∈ evs) := by
  refine ⟨fun o => ?_, fun o => ?_, fun o => ?_, fun o => ?_, ?_, ?_, ?_, ?_⟩
  · cases o <;> exact ⟨_, rfl, rfl⟩
  · cases o <;> exact ⟨_, rfl, rfl⟩
  · cases o <;> exact ⟨_, rfl, rfl⟩
  · cases o <;> exact ⟨_, rfl, rfl⟩
  · exact ⟨_, rfl, by simp [loadReportParameters], by simp [loadReportParameters],
      by simp [loadReportParameters]⟩
  · exact ⟨_, rfl, by simp [previewReport], by simp [previewReport], by simp [previewReport]⟩
  · exact ⟨_, rfl, by simp [loadDashboardData], by simp [loadDashboardData],
      by simp [loadDashboardData]⟩
  · exact ⟨_, rfl, by simp [loadTemplate]⟩

/-- The head of a `dropWhile` result fails the predicate. -/
theorem dropWhile_head_false {α : Type} {p : α → Bool} :
    ∀ {l : List α} {a : α} {t : List α}, l.dropWhile p = a :: t → p a = false := by
  intro l
  induction l with
  | nil => intro a t h; cases h
  | cons c cs ih =>
    intro a t h
    rw [List.dropWhile_cons] at h
    by_cases hc : p c = true
    · exact ih (by simpa [hc] using h)
    · have hc' : p c = false := by simpa using hc
      simp only [hc', Bool.false_eq_true, if_false, List.cons.injEq] at h
      obtain ⟨rfl, -⟩ := h
      exact hc'

/-- `fieldInvalid` is the negation of the per-field checks of `validateForm`. -/
theorem fieldInvalid_eq_not_fieldOkB (f : FormField) : fieldInvalid f = !fieldOkB f := by
  unfold fieldInvalid fieldMessages fieldOkB
  cases h1 : (f.required && decide (jsTrim f.value = "")) <;>
    cases h2 : (decide (f.fieldType = "email") && !decide (f.value = "") &&
      !isValidEmail f.value) <;>
      cases h3 : (decide (f.fieldType = "password") && !decide (f.value = "") &&
        decide (f.value.length < 6)) <;>
    rfl

/-- The Boolean and propositional per-field checks agree. -/
theorem fieldOkB_iff (f : FormField) : fieldOkB f = true ↔ fieldOk f := by
  have e1 : (!(f.required && decide (jsTrim f.value = ""))) = true ↔
      (f.required = true → jsTrim f.value ≠ "") := by
    cases hr : f.required <;> simp
  have e2 : (!(decide (f.fieldType = "email") && !decide (f.value = "") &&
      !isValidEmail f.value)) = true ↔
      (f.fieldType = "email" → f.value ≠ "" → isValidEmail f.value = true) := by
    by_cases he : f.fieldType = "email" <;> by_cases hv : f.value = "" <;> simp [he, hv]
  have e3 : (!(decide (f.fieldType = "password") && !decide (f.value = "") &&
      decide (f.value.length < 6))) = true ↔
      (f.fieldType = "password" → f.value ≠ "" → 6 ≤ f.value.length) := by
    by_cases hp : f.fieldType = "password" <;> by_cases hv : f.value = "" <;>
      simp [hp, hv, Nat.not_lt]
  unfold fieldOkB fieldOk
  rw [Bool.and_eq_true, Bool.and_eq_true, e1, e2, e3]
  exact and_assoc

/-- `validateForm` holds exactly when every field passes its per-field checks. -/
theorem validateForm_eq_all (fields : List FormField) :
    validateForm fields = true ↔ ∀ f ∈ fields, fieldOkB f = true := by
  unfold validateForm fieldOkB
  simp only [Bool.and_eq_true, List.all_eq_true, List.mem_filter]
  constructor
  · rintro ⟨⟨h1, h2⟩, h3⟩ f hf
    refine ⟨⟨?_, ?_⟩, ?_⟩
    · cases hr : f.required
      · simp
      · simpa [hr] using h1 f ⟨hf, hr⟩
    · cases he : decide (f.fieldType = "email")
      · simp [he]
      · simpa [he] using h2 f ⟨hf, he⟩
    · cases hp : decide (f.fieldType = "password")
      · simp [hp]
      · simpa [hp] using h3 f ⟨hf, hp⟩
  · intro h
    refine ⟨⟨fun f hf => ?_, fun f hf => ?_⟩, fun f hf => ?_⟩
    · have := (h f hf.1).1.1
      rw [hf.2] at this
      simpa using this
    · have := (h f hf.1).1.2
      rw [hf.2] at this
      simpa using this
    · have := (h f hf.1).2
      rw [hf.2] at this
      simpa using this

/-! ### C8: `validateForm` characterization -/

/-- C8: `validateForm` returns true exactly when every required field is
nonempty after trimming, every email field with a nonempty value matches the
email regex and every password field with a nonempty value has length at least
six; a field is marked `is-invalid` (with an error message appended) exactly
when it violates one of these checks; and any string accepted by the regex
model contains exactly one `@`, contains no whitespace, and has a `.` in the
part after the `@`. -/
theorem validateForm_characterization (fields : List FormField) (e : String)
    (he : isValidEmail e = true) :
    (validateForm fields = true ↔ ∀ f ∈ fields, fieldOk f) ∧
    (∀ f : FormField, fieldInvalid f = true ↔ ¬ fieldOk f) ∧
    e.data.count '@' = 1 ∧ (∀ c ∈ e.data, c.isWhitespace = false) ∧
    '.' ∈ (e.data.dropWhile fun c => !(c = '@')).drop 1 := by
  have main : (validateForm fields = true ↔ ∀ f ∈ fields, fieldOk f) := by
    refine (validateForm_eq_all fields).trans ⟨fun h f hf => ?_, fun h f hf => ?_⟩
    · exact (fieldOkB_iff f).1 (h f hf)
    · exact (fieldOkB_iff f).2 (h f hf)
  have marks : ∀ f : FormField, fieldInvalid f = true ↔ ¬ fieldOk f := by
    intro f
    rw [fieldInvalid_eq_not_fieldOkB, Bool.not_eq_true']
    constructor
    · intro h hok
      rw [(fieldOkB_iff f).2 hok] at h
      cases h
    · intro h
      cases hb : fieldOkB f
      · rfl
      · exact absurd ((fieldOkB_iff f).1 hb) h
  refine ⟨main, marks, ?_⟩
  rcases hd : e.data.dropWhile (fun c => !(c = '@')) with _ | ⟨a, domain⟩
  · unfold isValidEmail at he
    dsimp only at he
    rw [hd] at he
    cases he
  · unfold isValidEmail at he
    dsimp only at he
    rw [hd] at he
    simp only [Bool.and_eq_true] at he
    obtain ⟨⟨⟨hne, hloc⟩, hdom⟩, hdot⟩ := he
    have ha' : a = '@' := by
      have ha := @dropWhile_head_false Char (fun c => !decide (c = '@')) e.data a domain hd
      simpa using ha
    subst ha'
    have hsplit2 : e.data = (e.data.takeWhile fun c => !(c = '@')) ++ '@' :: domain := by
      conv_lhs => rw [← List.takeWhile_append_dropWhile (fun c => !(c = '@')) e.data]
      rw [hd]
    have hcl : (e.data.takeWhile fun c => !(c = '@')).count '@' = 0 := by
      rw [List.count_eq_zero]
      intro hmem
      have := List.mem_takeWhile_imp hmem
      simp at this
    have hcd : domain.count '@' = 0 := by
      rw [List.count_eq_zero]
      intro hmem
      have := List.all_eq_true.1 hdom '@' hmem
      simp [isEmailCharOk] at this
    refine ⟨?_, ?_, ?_⟩
    · rw [hsplit2, List.count_append, List.count_cons_self, hcl, hcd]
    · intro c hc
      rw [hsplit2] at hc
      rcases List.mem_append.1 hc with hc' | hc'
      · have := List.all_eq_true.1 hloc c hc'
        simp only [isEmailCharOk, Bool.and_eq_true, Bool.not_eq_true'] at this
        exact this.1
      · rcases List.mem_cons.1 hc' with rfl | hc''
        · decide
        · have := List.all_eq_true.1 hdom c hc''
          simp only [isEmailCharOk, Bool.and_eq_true, Bool.not_eq_true'] at this
          exact this.1
    · simp only [List.drop_succ_cons, List.drop_zero]
      have hmem : '.' ∈ (domain.drop 1).dropLast := by
        simpa using hdot
      exact (List.drop_sublist 1 domain).subset ((List.dropLast_sublist _).subset hmem)

/-- Concrete instance of C8: a two-field form with a valid email and a long
enough password validates; the email gloss holds at `user@bank.ru`. -/
theorem validateForm_characterization_witness :
    (validateForm [⟨"email", true, "user@bank.ru"⟩, ⟨"password", false, "secret123"⟩] = true ↔
      ∀ f ∈ [(⟨"email", true, "user@bank.ru"⟩ : FormField),
             ⟨"password", false, "secret123"⟩], fieldOk f) ∧
    (∀ f : FormField, fieldInvalid f = true ↔ ¬ fieldOk f) ∧
    "user@bank.ru".data.count '@' = 1 ∧
    (∀ c ∈ "user@bank.ru".data, c.isWhitespace = false) ∧
    '.' ∈ ("user@bank.ru".data.dropWhile fun c => !(c = '@')).drop 1 :=
  validateForm_characterization
    [⟨"email", true, "user@bank.ru"⟩, ⟨"password", false, "secret123"⟩]
    "user@bank.ru" (by decide)

/-! ### C1: the export queue processes at most one job at a time -/

/-- Along the drain loop, if no queued job starts out with status `processing`,
then every observable queue snapshot contains at most one processing job. -/
theorem drainSnapshots_single_processing (exc : ExportJob → Option Nat) :
    ∀ q : List ExportJob, (∀ j ∈ q, j.status ≠ .processing) →
      ∀ snap ∈ drainSnapshots exc q,
        (snap.countP fun x => decide (x.status = .processing)) ≤ 1 := by
  intro q
  induction q with
  | nil =>
    intro _ snap hsnap
    simp only [drainSnapshots, List.mem_singleton] at hsnap
    simp [hsnap]
  | cons j rest ih =>
    intro h snap hsnap
    have hrest0 : (rest.countP fun x => decide (x.status = .processing)) = 0 := by
      rw [List.countP_eq_zero]
      intro a ha
      simpa using h a (List.mem_cons_of_mem _ ha)
    have hcons : ∀ x : ExportJob,
        ((x :: rest).countP fun y => decide (y.status = .processing)) ≤ 1 := by
      intro x
      rw [List.countP_cons, hrest0]
      split <;> simp
    simp only [drainSnapshots] at hsnap
    rcases List.mem_cons.1 hsnap with rfl | hsnap'
    · exact hcons j
    · rcases he : exc j with _ | k
      · rw [he] at hsnap'
        rcases List.mem_append.1 hsnap' with hm | hm
        · obtain ⟨x, _, rfl⟩ := List.mem_map.1 hm
          exact hcons x
        · exact ih (fun a ha => h a (List.mem_cons_of_mem _ ha)) snap hm
      · rw [he] at hsnap'
        obtain ⟨x, _, rfl⟩ := List.mem_map.1 hsnap'
        exact hcons x

/-- C1: a call to `processExportQueue` while it is already running
(`isProcessing` true) or while the queue is empty returns immediately without
touching the queue, attempting no job and emitting nothing; and provided no job
in the queue is already marked `processing`, every queue state observable
during a drain shows at most one job with status `processing`. -/
theorem processExportQueue_single_job (exc : ExportJob → Option Nat) (s : RSState)
    (h : ∀ j ∈ s.exportQueue, j.status ≠ .processing) :
    (s.isProcessing = true ∨ s.exportQueue = [] →
      processExportQueue exc s = ⟨s, [], []⟩) ∧
    (∀ snap ∈ drainSnapshots exc s.exportQueue,
      (snap.countP fun x => decide (x.status = .processing)) ≤ 1) := by
  constructor
  · rintro (hb | hb)
    · unfold processExportQueue
      rw [hb]
      rfl
    · unfold processExportQueue
      rw [hb]
      simp
  · exact drainSnapshots_single_processing exc s.exportQueue h

/-- Concrete instance of C1: with a reentrant call (`isProcessing` true) the
state is returned untouched, and a mid-drain snapshot shows one processing job. -/
theorem processExportQueue_single_job_witness :
    processExportQueue (fun _ => none) ⟨[⟨"e1", "clients", "csv", .queued, 0⟩], true⟩ =
      ⟨⟨[⟨"e1", "clients", "csv", .queued, 0⟩], true⟩, [], []⟩ ∧
    (([⟨"e1", "clients", "csv", .processing, 50⟩] : List ExportJob).countP
      fun x => decide (x.status = .processing)) ≤ 1 :=
  ⟨(processExportQueue_single_job (fun _ => none)
      ⟨[⟨"e1", "clients", "csv", .queued, 0⟩], true⟩ (by decide)).1 (Or.inl rfl),
   (processExportQueue_single_job (fun _ => none)
      ⟨[⟨"e1", "clients", "csv", .queued, 0⟩], true⟩ (by decide)).2
     [⟨"e1", "clients", "csv", .processing, 50⟩] (by decide)⟩

/-! ### C4: successful runs drain the queue in FIFO order -/

/-- When every job resolves, the drain loop empties the queue and attempts the
jobs exactly in queue (FIFO) order. -/
theorem drainLoop_all_resolve (exc : ExportJob → Option Nat) :
    ∀ q : List ExportJob, (∀ j ∈ q, exc j = none) →
      (drainLoop exc q).queue = [] ∧ (drainLoop exc q).attempts = q := by
  intro q
  induction q with
  | nil => intro _; exact ⟨rfl, rfl⟩
  | cons j rest ih =>
    intro h
    have hj : exc j = none := h j (List.mem_cons_self j rest)
    have hr := ih fun a ha => h a (List.mem_cons_of_mem _ ha)
    simp only [drainLoop, hj]
    exact ⟨hr.1, by rw [hr.2]⟩

/-- C4: called at rest (`isProcessing` false) and with every job's processing
resolving, `processExportQueue` attempts the queued jobs one at a time in FIFO
order and terminates with an empty `exportQueue` and `isProcessing` false. -/
theorem processExportQueue_fifo_drain (exc : ExportJob → Option Nat) (s : RSState)
    (h1 : s.isProcessing = false) (h2 : ∀ j ∈ s.exportQueue, exc j = none) :
    (processExportQueue exc s).state.exportQueue = [] ∧
    (processExportQueue exc s).state.isProcessing = false ∧
    (processExportQueue exc s).attempts = s.exportQueue := by
  have hd := drainLoop_all_resolve exc s.exportQueue h2
  unfold processExportQueue
  cases hg : (s.isProcessing || s.exportQueue.isEmpty) with
  | true =>
    have hqe : s.exportQueue = [] := by
      rw [h1] at hg
      simpa [List.isEmpty_iff] using hg
    exact ⟨hqe, h1, hqe.symm⟩
  | false =>
    exact ⟨hd.1, rfl, hd.2⟩

/-- Concrete instance of C4: a two-job queue drains completely, attempting the
jobs in submission order. -/
theorem processExportQueue_fifo_drain_witness :
    (processExportQueue (fun _ => none)
      ⟨[⟨"e1", "clients", "csv", .queued, 0⟩,
        ⟨"e2", "transactions", "xlsx", .queued, 0⟩], false⟩).state.exportQueue = [] ∧
    (processExportQueue (fun _ => none)
      ⟨[⟨"e1", "clients", "csv", .queued, 0⟩,
        ⟨"e2", "transactions", "xlsx", .queued, 0⟩], false⟩).state.isProcessing = false ∧
    (processExportQueue (fun _ => none)
      ⟨[⟨"e1", "clients", "csv", .queued, 0⟩,
        ⟨"e2", "transactions", "xlsx", .queued, 0⟩], false⟩).attempts =
      [⟨"e1", "clients", "csv", .queued, 0⟩, ⟨"e2", "transactions", "xlsx", .queued, 0⟩] :=
  processExportQueue_fifo_drain (fun _ => none)
    ⟨[⟨"e1", "clients", "csv", .queued, 0⟩,
      ⟨"e2", "transactions", "xlsx", .queued, 0⟩], false⟩ rfl (by decide)

/-! ### C3: a failed job halts the drain and stays queued -/

/-- C3 (amended): when `processExportJob` rejects for the job at the front of
the queue, `processExportQueue` marks exactly that job `failed`, leaves it at
the front of the queue (it is not shifted off), attempts no other job, and
resets `isProcessing` to false.  The job is not re-attempted within this call;
it does remain first in line for any later call. -/
theorem processExportQueue_fail_halts (exc : ExportJob → Option Nat)
    (j : ExportJob) (rest : List ExportJob) (k : Nat) (hk : exc j = some k) :
    processExportQueue exc ⟨j :: rest, false⟩ =
      ⟨⟨{ j with status := .failed, progress := 10 * min k 10 } :: rest, false⟩,
       failEvents j (min k 10) ++
         [.consoleError "Ошибка экспорта:", .setStatus j.id .failed, .renderQueue],
       [j]⟩ := by
  have hd : drainLoop exc (j :: rest) =
      ⟨{ j with status := .failed, progress := 10 * min k 10 } :: rest,
       failEvents j (min k 10) ++
         [.consoleError "Ошибка экспорта:", .setStatus j.id .failed, .renderQueue],
       [j]⟩ := by
    unfold drainLoop
    rw [hk]
  simp [processExportQueue, hd]

/-- Concrete instance of C3: the failing head job of `demoScript` is marked
failed, kept at the front, and the job queued behind it is not attempted. -/
theorem processExportQueue_fail_halts_witness :
    processExportQueue demoExc
      ⟨[⟨"export-1001", "clients", "csv", .queued, 0⟩,
        ⟨"export-1002", "transactions", "xlsx", .queued, 0⟩], false⟩ =
      ⟨⟨[⟨"export-1001", "clients", "csv", .failed, 0⟩,
         ⟨"export-1002", "transactions", "xlsx", .queued, 0⟩], false⟩,
       failEvents ⟨"export-1001", "clients", "csv", .queued, 0⟩ 0 ++
         [.consoleError "Ошибка экспорта:", .setStatus "export-1001" .failed, .renderQueue],
       [⟨"export-1001", "clients", "csv", .queued, 0⟩]⟩ :=
  processExportQueue_fail_halts demoExc ⟨"export-1001", "clients", "csv", .queued, 0⟩
    [⟨"export-1002", "transactions", "xlsx", .queued, 0⟩] 0 (by decide)

/-- Counterexample to C3 as stated: the failed job is re-attempted later.  In
the `demoScript` run the job `export-1001` fails on its first attempt, stays at
the front of the queue, and the next `handleExport` call passes it — with
status `failed` — to `processExportJob` again (after which it completes). -/
theorem failed_job_reattempted_counterexample :
    (runScript demoExc demoScript ⟨[], false⟩).attempts =
      [⟨"export-1001", "clients", "csv", .queued, 0⟩,
       ⟨"export-1001", "clients", "csv", .failed, 0⟩,
       ⟨"export-1002", "transactions", "xlsx", .queued, 0⟩] ∧
    (⟨"export-1001", "clients", "csv", .failed, 0⟩ : ExportJob) ∈
      (runScript demoExc demoScript ⟨[], false⟩).attempts := by
  constructor
  · decide
  · decide

/-! ### C7: `sortTable` direction alternation -/

/-- The token order is irreflexive. -/
theorem tokLt_irrefl : ∀ a : NumTok, tokLt a a = false
  | .num m => by simp [tokLt]
  | .ch c => by simp [tokLt]

/-- The token order is asymmetric. -/
theorem tokLt_asymm : ∀ a b : NumTok, tokLt a b = true → tokLt b a = false
  | .num m, .num n => by
    intro h
    simp only [tokLt, decide_eq_true_eq] at h
    simp only [tokLt, decide_eq_false_iff_not]
    omega
  | .num _, .ch _ => by intro _; rfl
  | .ch _, .num _ => by intro h; cases h
  | .ch c, .ch d => by
    intro h
    simp only [tokLt, decide_eq_true_eq] at h
    simp only [tokLt, decide_eq_false_iff_not]
    exact lt_asymm h

/-- The token order is transitive. -/
theorem tokLt_trans : ∀ a b c : NumTok,
    tokLt a b = true → tokLt b c = true → tokLt a c = true
  | .num m, .num n, .num p => by
    intro h1 h2
    simp only [tokLt, decide_eq_true_eq] at h1 h2 ⊢
    omega
  | .num _, .num _, .ch _ => by intro _ _; rfl
  | .num _, .ch _, .num _ => by intro _ h2; cases h2
  | .num _, .ch _, .ch _ => by intro _ _; rfl
  | .ch _, .num _, _ => by intro h1 _; cases h1
  | .ch _, .ch _, .num _ => by intro _ h2; cases h2
  | .ch c, .ch d, .ch e => by
    intro h1 h2
    simp only [tokLt, decide_eq_true_eq] at h1 h2 ⊢
    exact lt_trans h1 h2

/-- Tokens that are mutually not below each other are equal. -/
theorem tokLt_connex : ∀ a b : NumTok, tokLt a b = false → tokLt b a = false → a = b
  | .num m, .num n => by
    intro h1 h2
    simp only [tokLt, decide_eq_false_iff_not] at h1 h2
    have : m = n := by omega
    rw [this]
  | .num _, .ch _ => by intro h1 _; cases h1
  | .ch _, .num _ => by intro _ h2; cases h2
  | .ch c, .ch d => by
    intro h1 h2
    simp only [tokLt, decide_eq_false_iff_not] at h1 h2
    have : c = d := le_antisymm (le_of_not_lt h2) (le_of_not_lt h1)
    rw [this]

/-- The key order is asymmetric. -/
theorem keyLt_asymm : ∀ x y : List NumTok, keyLt x y = true → keyLt y x = false
  | [], [] => by intro h; cases h
  | [], _ :: _ => by intro _; rfl
  | _ :: _, [] => by intro h; cases h
  | a :: as, b :: bs => by
    intro h
    simp only [keyLt, Bool.or_eq_true, Bool.and_eq_true, decide_eq_true_eq] at h
    simp only [keyLt, Bool.or_eq_false_iff, Bool.and_eq_false_iff,
      decide_eq_false_iff_not]
    rcases h with h1 | ⟨heq, hk⟩
    · refine ⟨tokLt_asymm a b h1, ?_⟩
      by_cases hba : b = a
      · subst hba
        rw [tokLt_irrefl] at h1
        cases h1
      · exact Or.inl hba
    · subst heq
      exact ⟨tokLt_irrefl a, Or.inr (keyLt_asymm as bs hk)⟩

/-- The key order is transitive. -/
theorem keyLt_trans : ∀ x y z : List NumTok,
    keyLt x y = true → keyLt y z = true → keyLt x z = true
  | [], [], _ => by intro h1 _; cases h1
  | [], _ :: _, [] => by intro _ h2; cases h2
  | [], _ :: _, _ :: _ => by intro _ _; rfl
  | _ :: _, [], _ => by intro h1 _; cases h1
  | _ :: _, _ :: _, [] => by intro _ h2; cases h2
  | a :: as, b :: bs, c :: cs => by
    intro h1 h2
    simp only [keyLt, Bool.or_eq_true, Bool.and_eq_true, decide_eq_true_eq] at h1 h2 ⊢
    rcases h1 with h1 | ⟨rfl, hk1⟩
    · rcases h2 with h2 | ⟨rfl, _⟩
      · exact Or.inl (tokLt_trans a b c h1 h2)
      · exact Or.inl h1
    · rcases h2 with h2 | ⟨rfl, hk2⟩
      · exact Or.inl h2
      · exact Or.inr ⟨rfl, keyLt_trans as bs cs hk1 hk2⟩

/-- Keys that are mutually not below each other are equal. -/
theorem keyLt_connex : ∀ x y : List NumTok, keyLt x y = false → keyLt y x = false → x = y
  | [], [] => by intro _ _; rfl
  | [], _ :: _ => by intro h1 _; cases h1
  | _ :: _, [] => by intro _ h2; cases h2
  | a :: as, b :: bs => by
    intro h1 h2
    simp only [keyLt, Bool.or_eq_false_iff, Bool.and_eq_false_iff,
      decide_eq_false_iff_not] at h1 h2
    obtain ⟨hab, h1'⟩ := h1
    obtain ⟨hba, h2'⟩ := h2
    have heq : a = b := tokLt_connex a b hab hba
    subst heq
    have hk1 : keyLt as bs = false := by
      rcases h1' with h | h
      · exact absurd rfl h
      · exact h
    have hk2 : keyLt bs as = false := by
      rcases h2' with h | h
      · exact absurd rfl h
      · exact h
    rw [keyLt_connex as bs hk1 hk2]

/-- The ascending row comparator is total. -/
theorem rowLeAsc_total (col : Nat) (a b : List String) :
    rowLeAsc col a b ∨ rowLeAsc col b a := by
  unfold rowLeAsc
  cases h1 : keyLt (rowKey col b) (rowKey col a)
  · exact Or.inl rfl
  · exact Or.inr (keyLt_asymm _ _ h1)

/-- The ascending row comparator is transitive. -/
theorem rowLeAsc_trans (col : Nat) (a b c : List String)
    (h1 : rowLeAsc col a b) (h2 : rowLeAsc col b c) : rowLeAsc col a c := by
  unfold rowLeAsc at h1 h2 ⊢
  cases hac : keyLt (rowKey col c) (rowKey col a)
  · rfl
  · exfalso
    cases hbc : keyLt (rowKey col b) (rowKey col c)
    · have heq := keyLt_connex _ _ h2 hbc
      rw [← heq] at h1
      rw [hac] at h1
      cases h1
    · have := keyLt_trans _ _ _ hbc hac
      rw [this] at h1
      cases h1

/-- The descending row comparator is total. -/
theorem rowLeDesc_total (col : Nat) (a b : List String) :
    rowLeDesc col a b ∨ rowLeDesc col b a := by
  unfold rowLeDesc
  cases h1 : keyLt (rowKey col a) (rowKey col b)
  · exact Or.inl rfl
  · exact Or.inr (keyLt_asymm _ _ h1)

/-- The descending row comparator is transitive. -/
theorem rowLeDesc_trans (col : Nat) (a b c : List String)
    (h1 : rowLeDesc col a b) (h2 : rowLeDesc col b c) : rowLeDesc col a c := by
  unfold rowLeDesc at h1 h2 ⊢
  cases hac : keyLt (rowKey col a) (rowKey col c)
  · rfl
  · exfalso
    cases hba : keyLt (rowKey col b) (rowKey col a)
    · have heq := keyLt_connex _ _ h1 hba
      rw [← heq] at h2
      rw [hac] at h2
      cases h2
    · have := keyLt_trans _ _ _ hba hac
      rw [this] at h2
      cases h2

/-- A sorted list is determined by its multiset of elements when the order is
antisymmetric on those elements. -/
theorem sorted_unique {α : Type} {R : α → α → Prop} :
    ∀ {l₁ l₂ : List α}, l₁.Perm l₂ → l₁.Pairwise R → l₂.Pairwise R →
      (∀ a ∈ l₁, ∀ b ∈ l₁, R a b → R b a → a = b) → l₁ = l₂ := by
  intro l₁
  induction l₁ with
  | nil =>
    intro l₂ hp _ _ _
    exact (hp.symm.eq_nil).symm
  | cons a t ih =>
    intro l₂ hp hs₁ hs₂ hanti
    cases l₂ with
    | nil => cases hp.eq_nil
    | cons b u =>
      by_cases hab : a = b
      · subst hab
        have ht : t.Perm u := hp.cons_inv
        have hanti' : ∀ x ∈ t, ∀ y ∈ t, R x y → R y x → x = y := fun x hx y hy =>
          hanti x (List.mem_cons_of_mem _ hx) y (List.mem_cons_of_mem _ hy)
        rw [ih ht (List.Pairwise.of_cons hs₁) (List.Pairwise.of_cons hs₂) hanti']
      · exfalso
        have hbt : b ∈ t := by
          have hb : b ∈ a :: t := hp.mem_iff.2 (List.mem_cons_self b u)
          rcases List.mem_cons.1 hb with h | h
          · exact absurd h.symm hab
          · exact h
        have hau : a ∈ u := by
          have ha : a ∈ b :: u := hp.mem_iff.1 (List.mem_cons_self a t)
          rcases List.mem_cons.1 ha with h | h
          · exact absurd h hab
          · exact h
        have hRab : R a b := (List.pairwise_cons.1 hs₁).1 b hbt
        have hRba : R b a := (List.pairwise_cons.1 hs₂).1 a hau
        exact hab (hanti a (List.mem_cons_self a t) b (List.mem_cons_of_mem _ hbt) hRab hRba)

/-- C7 (amended): clicking an unsorted header sorts the rows ascending by the
column's trimmed text under the numeric-aware collation and sets `sort-asc`;
a second click sorts descending and flips the classes to `sort-desc`; and —
provided no two distinct rows tie on their sort key — the second click yields
exactly the reverse of the first ordering. -/
theorem sortTable_alternates (col : Nat) (ts : TableState)
    (h0 : ts.sortedAsc = false)
    (hkey : ∀ a ∈ ts.rows, ∀ b ∈ ts.rows, rowKey col a = rowKey col b → a = b) :
    (sortTableStep col ts).sortedAsc = true ∧
    (sortTableStep col ts).sortedDesc = false ∧
    (sortTableStep col (sortTableStep col ts)).sortedAsc = false ∧
    (sortTableStep col (sortTableStep col ts)).sortedDesc = true ∧
    (sortTableStep col ts).rows.Perm ts.rows ∧
    (sortTableStep col ts).rows.Sorted (rowLeAsc col) ∧
    (sortTableStep col (sortTableStep col ts)).rows.Sorted (rowLeDesc col) ∧
    (sortTableStep col (sortTableStep col ts)).rows = (sortTableStep col ts).rows.reverse := by
  haveI htrA : IsTrans (List String) (rowLeAsc col) := ⟨fun a b c => rowLeAsc_trans col a b c⟩
  haveI htoA : IsTotal (List String) (rowLeAsc col) := ⟨fun a b => rowLeAsc_total col a b⟩
  haveI htrD : IsTrans (List String) (rowLeDesc col) := ⟨fun a b c => rowLeDesc_trans col a b c⟩
  haveI htoD : IsTotal (List String) (rowLeDesc col) := ⟨fun a b => rowLeDesc_total col a b⟩
  have hstep1 : sortTableStep col ts =
      ⟨ts.rows.insertionSort (rowLeAsc col), true, false⟩ := by
    unfold sortTableStep
    rw [h0]
    rfl
  have hstep2 : sortTableStep col (sortTableStep col ts) =
      ⟨(ts.rows.insertionSort (rowLeAsc col)).insertionSort (rowLeDesc col), false, true⟩ := by
    rw [hstep1]
    rfl
  have hperm1 : (ts.rows.insertionSort (rowLeAsc col)).Perm ts.rows :=
    List.perm_insertionSort _ _
  have hsorted1 : (ts.rows.insertionSort (rowLeAsc col)).Sorted (rowLeAsc col) :=
    List.sorted_insertionSort _ _
  have hperm2 :
      ((ts.rows.insertionSort (rowLeAsc col)).insertionSort (rowLeDesc col)).Perm
        (ts.rows.insertionSort (rowLeAsc col)) :=
    List.perm_insertionSort _ _
  have hsorted2 :
      ((ts.rows.insertionSort (rowLeAsc col)).insertionSort (rowLeDesc col)).Sorted
        (rowLeDesc col) :=
    List.sorted_insertionSort _ _
  have hsortedRev : ((ts.rows.insertionSort (rowLeAsc col)).reverse).Sorted (rowLeDesc col) :=
    List.pairwise_reverse.2 hsorted1
  have hrev :
      (ts.rows.insertionSort (rowLeAsc col)).insertionSort (rowLeDesc col) =
        (ts.rows.insertionSort (rowLeAsc col)).reverse := by
    refine sorted_unique (hperm2.trans (ts.rows.insertionSort (rowLeAsc col)).reverse_perm.symm)
      hsorted2 hsortedRev ?_
    intro a ha b hb h1 h2
    have ha' : a ∈ ts.rows := hperm1.mem_iff.1 (hperm2.mem_iff.1 ha)
    have hb' : b ∈ ts.rows := hperm1.mem_iff.1 (hperm2.mem_iff.1 hb)
    exact hkey a ha' b hb' (keyLt_connex _ _ h1 h2)
  rw [hstep2, hstep1]
  exact ⟨rfl, rfl, rfl, rfl, hperm1, hsorted1, hsorted2, hrev⟩

/-- Concrete instance of C7 (amended) on numeric keys `2` and `10`: the first
click orders them numerically ascending, the second click reverses them. -/
theorem sortTable_alternates_witness :
    (sortTableStep 0 ⟨[["2"], ["10"]], false, false⟩).sortedAsc = true ∧
    (sortTableStep 0 ⟨[["2"], ["10"]], false, false⟩).sortedDesc = false ∧
    (sortTableStep 0 (sortTableStep 0 ⟨[["2"], ["10"]], false, false⟩)).sortedAsc = false ∧
    (sortTableStep 0 (sortTableStep 0 ⟨[["2"], ["10"]], false, false⟩)).sortedDesc = true ∧
    (sortTableStep 0 ⟨[["2"], ["10"]], false, false⟩).rows.Perm [["2"], ["10"]] ∧
    (sortTableStep 0 ⟨[["2"], ["10"]], false, false⟩).rows.Sorted (rowLeAsc 0) ∧
    (sortTableStep 0 (sortTableStep 0 ⟨[["2"], ["10"]], false, false⟩)).rows.Sorted
      (rowLeDesc 0) ∧
    (sortTableStep 0 (sortTableStep 0 ⟨[["2"], ["10"]], false, false⟩)).rows =
      (sortTableStep 0 ⟨[["2"], ["10"]], false, false⟩).rows.reverse :=
  sortTable_alternates 0 ⟨[["2"], ["10"]], false, false⟩ rfl (by decide)

/-- Counterexample to C7 as stated: with two distinct rows whose sort keys tie
(`a` in the clicked column), two consecutive `sortTable` clicks do not produce
opposite orders — the stable sort leaves the tied rows in place both times. -/
theorem sortTable_opposite_counterexample :
    (sortTableStep 0 (sortTableStep 0 ⟨[["a", "x"], ["a", "y"]], false, false⟩)).rows ≠
      (sortTableStep 0 ⟨[["a", "x"], ["a", "y"]], false, false⟩).rows.reverse := by
  decide

/-! ### C10: export job lifecycle -/

/-- `statusHistory` distributes over trace concatenation. -/
theorem statusHistory_append (id : String) (l₁ l₂ : List UIEvent) :
    statusHistory id (l₁ ++ l₂) = statusHistory id l₁ ++ statusHistory id l₂ := by
  simp [statusHistory]

/-- `progressValues` distributes over trace concatenation. -/
theorem progressValues_append (l₁ l₂ : List UIEvent) :
    progressValues (l₁ ++ l₂) = progressValues l₁ ++ progressValues l₂ := by
  simp [progressValues]

/-- The progress-loop events contain no status writes. -/
theorem statusHistory_steps (id jid : String) (n : Nat) :
    statusHistory id ((List.range n).flatMap fun i =>
      [UIEvent.setProgress jid (10 * i), .renderQueue, .delayMs 500]) = [] := by
  rw [statusHistory, List.filterMap_eq_nil_iff]
  intro e he
  rcases List.mem_flatMap.1 he with ⟨i, _, hi⟩
  simp only [List.mem_cons, List.not_mem_nil, or_false] at hi
  rcases hi with rfl | rfl | rfl <;> rfl

/-- The progress writes of the progress loop. -/
theorem progressValues_steps (jid : String) (n : Nat) :
    progressValues ((List.range n).flatMap fun i =>
      [UIEvent.setProgress jid (10 * i), .renderQueue, .delayMs 500]) =
      (List.range n).map (10 * ·) := by
  induction n with
  | zero => rfl
  | succ m ih =>
    rw [List.range_succ, List.flatMap_append, progressValues_append, ih, List.map_append]
    rfl

/-- Status writes of a successful `processExportJob` run: `processing` then
`completed` for the processed job, nothing for any other job. -/
theorem statusHistory_processJob (id : String) (j : ExportJob) :
    statusHistory id (processExportJob j).2 =
      if j.id = id then [.processing, .completed] else [] := by
  show statusHistory id
    ([UIEvent.setStatus j.id .processing, .renderQueue] ++
      ((List.range 11).flatMap fun i =>
        [UIEvent.setProgress j.id (10 * i), .renderQueue, .delayMs 500]) ++
      [UIEvent.setStatus j.id .completed, .renderQueue] ++
      downloadExportResult j) = _
  rw [statusHistory_append, statusHistory_append, statusHistory_append,
    statusHistory_steps]
  by_cases h : j.id = id <;>
    simp [statusHistory, toStatusWrite, downloadExportResult, h]

/-- Progress writes of a successful `processExportJob` run. -/
theorem progressValues_processJob (j : ExportJob) :
    progressValues (processExportJob j).2 = (List.range 11).map (10 * ·) := by
  show progressValues
    ([UIEvent.setStatus j.id .processing, .renderQueue] ++
      ((List.range 11).flatMap fun i =>
        [UIEvent.setProgress j.id (10 * i), .renderQueue, .delayMs 500]) ++
      [UIEvent.setStatus j.id .completed, .renderQueue] ++
      downloadExportResult j) = _
  rw [progressValues_append, progressValues_append, progressValues_append,
    progressValues_steps]
  simp [progressValues, downloadExportResult]

/-- Status writes of a failed head-job iteration (the partial run plus the
catch block): `processing` then `failed` for the job, nothing for others. -/
theorem statusHistory_failBlock (id : String) (j : ExportJob) (m : Nat) :
    statusHistory id (failEvents j m ++
      [.consoleError "Ошибка экспорта:", .setStatus j.id .failed, .renderQueue]) =
      if j.id = id then [.processing, .failed] else [] := by
  rw [statusHistory_append]
  show statusHistory id
      ([UIEvent.setStatus j.id .processing, .renderQueue] ++
        ((List.range (m + 1)).flatMap fun i =>
          [UIEvent.setProgress j.id (10 * i), .renderQueue, .delayMs 500])) ++ _ = _
  rw [statusHistory_append, statusHistory_steps]
  by_cases h : j.id = id <;> simp [statusHistory, toStatusWrite, h]

/-- Progress writes of a failed head-job iteration. -/
theorem progressValues_failBlock (j : ExportJob) (m : Nat) :
    progressValues (failEvents j m ++
      [.consoleError "Ошибка экспорта:", .setStatus j.id .failed, .renderQueue]) =
      (List.range (m + 1)).map (10 * ·) := by
  rw [progressValues_append]
  show progressValues
      ([UIEvent.setStatus j.id .processing, .renderQueue] ++
        ((List.range (m + 1)).flatMap fun i =>
          [UIEvent.setProgress j.id (10 * i), .renderQueue, .delayMs 500])) ++ _ = _
  rw [progressValues_append, progressValues_steps]
  simp [progressValues]

/-- Invariant preservation along the drain loop: distinct ids stay distinct,
queue jobs stay `queued`/`failed` with progress a multiple of 10 at most 100,
recorded histories stay consistent with job statuses and follow `statusStep`,
the loop writes only to jobs that were in the queue, and all progress writes
are multiples of 10 at most 100. -/
theorem drain_inv (exc : ExportJob → Option Nat) :
    ∀ (q : List ExportJob) (evs : List UIEvent),
      (q.map (·.id)).Nodup →
      (∀ j ∈ q, (j.status = .queued ∨ j.status = .failed) ∧
        j.progress % 10 = 0 ∧ j.progress ≤ 100) →
      (∀ j ∈ q, (statusHistory j.id evs).getLast? = some j.status) →
      (∀ id, List.Chain' (fun a b => statusStep a b = true) (statusHistory id evs)) →
      ((drainLoop exc q).queue.map (·.id)).Nodup ∧
      (∀ j ∈ (drainLoop exc q).queue, (j.status = .queued ∨ j.status = .failed) ∧
        j.progress % 10 = 0 ∧ j.progress ≤ 100) ∧
      (∀ j ∈ (drainLoop exc q).queue,
        (statusHistory j.id (evs ++ (drainLoop exc q).events)).getLast? = some j.status) ∧
      (∀ id, List.Chain' (fun a b => statusStep a b = true)
        (statusHistory id (evs ++ (drainLoop exc q).events))) ∧
      (∀ j ∈ (drainLoop exc q).queue, j.id ∈ q.map (·.id)) ∧
      (∀ id, id ∉ q.map (·.id) → statusHistory id (drainLoop exc q).events = []) ∧
      (∀ p ∈ progressValues (drainLoop exc q).events, p % 10 = 0 ∧ p ≤ 100) := by
  intro q
  induction q with
  | nil =>
    intro evs _ _ _ hchain
    refine ⟨by simp [drainLoop], by simp [drainLoop], by simp [drainLoop], ?_,
      by simp [drainLoop], by simp [drainLoop, statusHistory],
      by simp [drainLoop, progressValues]⟩
    intro id
    simpa [drainLoop] using hchain id
  | cons j rest ih =>
    intro evs hnodup hstat hlast hchain
    have hjmem : j ∈ j :: rest := List.mem_cons_self j rest
    have hjid : j.id ∉ rest.map (·.id) := by
      have := hnodup
      rw [List.map_cons] at this
      exact (List.nodup_cons.1 this).1
    have hrestnodup : (rest.map (·.id)).Nodup := by
      have := hnodup
      rw [List.map_cons] at this
      exact (List.nodup_cons.1 this).2
    have hstep_start : statusStep j.status .processing = true := by
      rcases (hstat j hjmem).1 with h | h <;> rw [h] <;> rfl
    cases he : exc j with
    | none =>
      have hd : drainLoop exc (j :: rest) =
          ⟨(drainLoop exc rest).queue,
           (processExportJob j).2 ++ (drainLoop exc rest).events,
           j :: (drainLoop exc rest).attempts⟩ := by
        simp only [drainLoop, he]
      have hlast' : ∀ j' ∈ rest,
          (statusHistory j'.id (evs ++ (processExportJob j).2)).getLast? = some j'.status := by
        intro j' hj'
        have hne : j.id ≠ j'.id := fun hcontra => hjid (hcontra ▸ List.mem_map_of_mem _ hj')
        rw [statusHistory_append, statusHistory_processJob, if_neg hne, List.append_nil]
        exact hlast j' (List.mem_cons_of_mem _ hj')
      have hchain' : ∀ id, List.Chain' (fun a b => statusStep a b = true)
          (statusHistory id (evs ++ (processExportJob j).2)) := by
        intro id
        rw [statusHistory_append, statusHistory_processJob]
        by_cases hid : j.id = id
        · rw [if_pos hid, List.chain'_append]
          refine ⟨hchain id, List.chain'_cons.2 ⟨rfl, List.chain'_singleton _⟩, ?_⟩
          intro x hx y hy
          rw [← hid, hlast j hjmem] at hx
          have hx' : j.status = x := by simpa using hx
          have hy' : JobStatus.processing = y := by simpa using hy
          rw [← hx', ← hy']
          exact hstep_start
        · rw [if_neg hid, List.append_nil]
          exact hchain id
      obtain ⟨c1, c2, c3, c4, c5, c6, c7⟩ := ih (evs ++ (processExportJob j).2) hrestnodup
        (fun a ha => hstat a (List.mem_cons_of_mem _ ha)) hlast' hchain'
      rw [hd]
      dsimp only
      refine ⟨c1, c2, ?_, ?_, ?_, ?_, ?_⟩
      · intro j' hj'
        rw [← List.append_assoc]
        exact c3 j' hj'
      · intro id
        rw [← List.append_assoc]
        exact c4 id
      · intro j' hj'
        rw [List.map_cons]
        exact List.mem_cons_of_mem _ (c5 j' hj')
      · intro id hid
        rw [List.map_cons] at hid
        have hid1 : ¬(j.id = id) := fun h => hid (h ▸ List.mem_cons_self _ _)
        have hid2 : id ∉ rest.map (·.id) := fun h => hid (List.mem_cons_of_mem _ h)
        rw [statusHistory_append, statusHistory_processJob, if_neg hid1, List.nil_append]
        exact c6 id hid2
      · intro p hp
        rw [progressValues_append, List.mem_append] at hp
        rcases hp with hp | hp
        · rw [progressValues_processJob] at hp
          obtain ⟨i, hi, rfl⟩ := List.mem_map.1 hp
          have : i < 11 := List.mem_range.1 hi
          constructor <;> omega
        · exact c7 p hp
    | some k =>
      have hd : drainLoop exc (j :: rest) =
          ⟨{ j with status := .failed, progress := 10 * min k 10 } :: rest,
           failEvents j (min k 10) ++
             [.consoleError "Ошибка экспорта:", .setStatus j.id .failed, .renderQueue],
           [j]⟩ := by
        simp only [drainLoop, he]
      rw [hd]
      dsimp only
      have hmle : min k 10 ≤ 10 := min_le_right k 10
      refine ⟨?_, ?_, ?_, ?_, ?_, ?_, ?_⟩
      · simpa [List.map_cons] using hnodup
      · intro j' hj'
        rcases List.mem_cons.1 hj' with rfl | hj''
        · exact ⟨Or.inr rfl, show (10 * min k 10) % 10 = 0 by omega,
            show 10 * min k 10 ≤ 100 by omega⟩
        · exact hstat j' (List.mem_cons_of_mem _ hj'')
      · intro j' hj'
        rcases List.mem_cons.1 hj' with rfl | hj''
        · rw [statusHistory_append, statusHistory_failBlock, if_pos rfl,
            List.getLast?_append_of_ne_nil _ (by simp)]
          rfl
        · have hne : j.id ≠ j'.id := fun hcontra => hjid (hcontra ▸ List.mem_map_of_mem _ hj'')
          rw [statusHistory_append, statusHistory_failBlock, if_neg hne, List.append_nil]
          exact hlast j' (List.mem_cons_of_mem _ hj'')
      · intro id
        rw [statusHistory_append, statusHistory_failBlock]
        by_cases hid : j.id = id
        · rw [if_pos hid, List.chain'_append]
          refine ⟨hchain id, List.chain'_cons.2 ⟨rfl, List.chain'_singleton _⟩, ?_⟩
          intro x hx y hy
          rw [← hid, hlast j hjmem] at hx
          have hx' : j.status = x := by simpa using hx
          have hy' : JobStatus.processing = y := by simpa using hy
          rw [← hx', ← hy']
          exact hstep_start
        · rw [if_neg hid, List.append_nil]
          exact hchain id
      · intro j' hj'
        rw [List.map_cons]
        rcases List.mem_cons.1 hj' with rfl | hj''
        · exact List.mem_cons_self _ _
        · exact List.mem_cons_of_mem _ (List.mem_map_of_mem _ hj'')
      · intro id hid
        rw [List.map_cons] at hid
        have hid1 : ¬(j.id = id) := fun h => hid (h ▸ List.mem_cons_self _ _)
        rw [statusHistory_failBlock, if_neg hid1]
      · intro p hp
        rw [progressValues_failBlock] at hp
        obtain ⟨i, hi, rfl⟩ := List.mem_map.1 hp
        have hi' : i < min k 10 + 1 := List.mem_range.1 hi
        constructor <;> omega

/-- A single `handleExport` call preserves the system invariant, writes only to
its own job or to jobs already queued, keeps all progress writes multiples of
10 at most 100, and starts its job's recorded history with `queued`. -/
theorem handleExport_inv (exc : ExportJob → Option Nat) (id t f : String)
    (s : RSState) (evs : List UIEvent)
    (hinv : SysInv s evs) (hfresh : statusHistory id evs = []) :
    SysInv (handleExport exc id t f s).state (evs ++ (handleExport exc id t f s).events) ∧
    (∀ i : String, i ≠ id → i ∉ s.exportQueue.map (·.id) →
      statusHistory i (handleExport exc id t f s).events = []) ∧
    (∀ p ∈ progressValues (handleExport exc id t f s).events, p % 10 = 0 ∧ p ≤ 100) ∧
    (statusHistory id (evs ++ (handleExport exc id t f s).events)).head? =
      some .queued := by
  obtain ⟨hproc, hnodup, hstat, hlast, hchain⟩ := hinv
  have hgo : handleExport exc id t f s =
      ⟨⟨(drainLoop exc (s.exportQueue ++ [⟨id, t, f, .queued, 0⟩])).queue, false⟩,
       .createJob id .queued :: .renderQueue ::
         (drainLoop exc (s.exportQueue ++ [⟨id, t, f, .queued, 0⟩])).events,
       (drainLoop exc (s.exportQueue ++ [⟨id, t, f, .queued, 0⟩])).attempts⟩ := by
    have hne : (s.exportQueue ++ [(⟨id, t, f, .queued, 0⟩ : ExportJob)]).isEmpty = false := by
      cases s.exportQueue <;> rfl
    unfold handleExport processExportQueue
    rw [hproc]
    dsimp only
    rw [hne]
    rfl
  have hidfresh : id ∉ s.exportQueue.map (·.id) := by
    intro hmem
    obtain ⟨j', hj', hj'id⟩ := List.mem_map.1 hmem
    have hcontra := hlast j' hj'
    rw [hj'id, hfresh] at hcontra
    cases hcontra
  have h_e1 : ∀ i, statusHistory i [UIEvent.createJob id .queued, .renderQueue] =
      if id = i then [.queued] else [] := by
    intro i
    by_cases h : id = i <;> simp [statusHistory, toStatusWrite, h]
  have hnodup' : ((s.exportQueue ++ [(⟨id, t, f, .queued, 0⟩ : ExportJob)]).map (·.id)).Nodup := by
    rw [List.map_append]
    refine hnodup.append (List.nodup_singleton _) ?_
    intro a ha hb
    simp only [List.map_cons, List.map_nil, List.mem_singleton] at hb
    subst hb
    exact hidfresh ha
  have hstat' : ∀ j ∈ s.exportQueue ++ [(⟨id, t, f, .queued, 0⟩ : ExportJob)],
      (j.status = .queued ∨ j.status = .failed) ∧ j.progress % 10 = 0 ∧ j.progress ≤ 100 := by
    intro j hj
    rcases List.mem_append.1 hj with hj' | hj'
    · exact hstat j hj'
    · rw [List.mem_singleton] at hj'
      subst hj'
      exact ⟨Or.inl rfl, rfl, show (0 : Nat) ≤ 100 by omega⟩
  have hlast' : ∀ j ∈ s.exportQueue ++ [(⟨id, t, f, .queued, 0⟩ : ExportJob)],
      (statusHistory j.id (evs ++ [UIEvent.createJob id .queued, .renderQueue])).getLast? =
        some j.status := by
    intro j hj
    rw [statusHistory_append, h_e1]
    rcases List.mem_append.1 hj with hj' | hj'
    · have hne : ¬(id = j.id) := fun hcontra =>
        hidfresh (hcontra ▸ List.mem_map_of_mem _ hj')
      rw [if_neg hne, List.append_nil]
      exact hlast j hj'
    · rw [List.mem_singleton] at hj'
      subst hj'
      rw [if_pos rfl, hfresh]
      rfl
  have hchain' : ∀ i, List.Chain' (fun a b => statusStep a b = true)
      (statusHistory i (evs ++ [UIEvent.createJob id .queued, .renderQueue])) := by
    intro i
    rw [statusHistory_append, h_e1]
    by_cases h : id = i
    · rw [if_pos h, ← h, hfresh]
      exact List.chain'_singleton _
    · rw [if_neg h, List.append_nil]
      exact hchain i
  obtain ⟨d1, d2, d3, d4, d5, d6, d7⟩ := drain_inv exc
    (s.exportQueue ++ [⟨id, t, f, .queued, 0⟩])
    (evs ++ [UIEvent.createJob id .queued, .renderQueue]) hnodup' hstat' hlast' hchain'
  rw [hgo]
  dsimp only
  have hassoc : ∀ l : List UIEvent,
      evs ++ (UIEvent.createJob id .queued :: UIEvent.renderQueue :: l) =
        (evs ++ [UIEvent.createJob id .queued, .renderQueue]) ++ l := by
    intro l
    rw [List.append_assoc]
    rfl
  refine ⟨⟨rfl, d1, d2, ?_, ?_⟩, ?_, ?_, ?_⟩
  · intro j hj
    rw [hassoc]
    exact d3 j hj
  · intro i
    rw [hassoc]
    exact d4 i
  · intro i hne hnotmem
    have h1 : statusHistory i [UIEvent.createJob id .queued, .renderQueue] = [] := by
      rw [h_e1, if_neg (fun h => hne h.symm)]
    have h2 : statusHistory i
        (drainLoop exc (s.exportQueue ++ [⟨id, t, f, .queued, 0⟩])).events = [] := by
      refine d6 i ?_
      rw [List.map_append, List.mem_append]
      rintro (h | h)
      · exact hnotmem h
      · simp only [List.map_cons, List.map_nil, List.mem_singleton] at h
        exact hne h
    show statusHistory i ([UIEvent.createJob id .queued, .renderQueue] ++ _) = []
    rw [statusHistory_append, h1, h2]
    rfl
  · intro p hp
    have : progressValues (UIEvent.createJob id .queued :: UIEvent.renderQueue ::
        (drainLoop exc (s.exportQueue ++ [⟨id, t, f, .queued, 0⟩])).events) =
        progressValues (drainLoop exc (s.exportQueue ++ [⟨id, t, f, .queued, 0⟩])).events := by
      show progressValues ([UIEvent.createJob id .queued, .renderQueue] ++ _) = _
      rw [progressValues_append]
      rfl
    rw [this] at hp
    exact d7 p hp
  · rw [hassoc, statusHistory_append, statusHistory_append, h_e1, if_pos rfl, hfresh]
    rw [List.nil_append]
    rw [List.head?_append_of_ne_nil _ (List.cons_ne_nil _ _)]
    rfl

/-- A whole sequence of export submissions (with distinct job ids) preserves
the system invariant, keeps all progress writes multiples of 10 at most 100,
and starts every submitted job's history with `queued`. -/
theorem runScript_inv (exc : ExportJob → Option Nat) :
    ∀ (ops : List (String × String × String)) (s : RSState) (evs : List UIEvent),
      SysInv s evs →
      (ops.map (·.1)).Nodup →
      (∀ o ∈ ops, statusHistory o.1 evs = []) →
      SysInv (runScript exc ops s).state (evs ++ (runScript exc ops s).events) ∧
      (∀ p ∈ progressValues (runScript exc ops s).events, p % 10 = 0 ∧ p ≤ 100) ∧
      (∀ o ∈ ops, (statusHistory o.1 (evs ++ (runScript exc ops s).events)).head? =
        some .queued) := by
  intro ops
  induction ops with
  | nil =>
    intro s evs hinv _ _
    refine ⟨?_, ?_, ?_⟩
    · have h : runScript exc [] s = ⟨s, [], []⟩ := rfl
      rw [h, List.append_nil]
      exact hinv
    · intro p hp
      exact absurd hp (List.not_mem_nil p)
    · intro o ho
      exact absurd ho (List.not_mem_nil o)
  | cons op ops ih =>
    intro s evs hinv hnodup hfresh
    obtain ⟨id, t, f⟩ := op
    have hlastq := hinv
    obtain ⟨-, -, -, hlast0, -⟩ := hlastq
    obtain ⟨hinv1, hwrites1, hprog1, hhead1⟩ :=
      handleExport_inv exc id t f s evs hinv (hfresh _ (List.mem_cons_self _ _))
    have hid_notin : id ∉ ops.map (·.1) := by
      have := hnodup
      rw [List.map_cons] at this
      exact (List.nodup_cons.1 this).1
    have hnodup' : (ops.map (·.1)).Nodup := by
      have := hnodup
      rw [List.map_cons] at this
      exact (List.nodup_cons.1 this).2
    have hfresh' : ∀ o ∈ ops,
        statusHistory o.1 (evs ++ (handleExport exc id t f s).events) = [] := by
      intro o ho
      rw [statusHistory_append, hfresh o (List.mem_cons_of_mem _ ho), List.nil_append]
      refine hwrites1 o.1 ?_ ?_
      · intro hcontra
        exact hid_notin (hcontra ▸ List.mem_map_of_mem _ ho)
      · intro hmem
        obtain ⟨j', hj', hj'id⟩ := List.mem_map.1 hmem
        have hcontra := hlast0 j' hj'
        rw [hj'id, hfresh o (List.mem_cons_of_mem _ ho)] at hcontra
        cases hcontra
    obtain ⟨rinv, rprog, rhead⟩ := ih (handleExport exc id t f s).state
      (evs ++ (handleExport exc id t f s).events) hinv1 hnodup' hfresh'
    have hrs : runScript exc ((id, t, f) :: ops) s =
        ⟨(runScript exc ops (handleExport exc id t f s).state).state,
         (handleExport exc id t f s).events ++
           (runScript exc ops (handleExport exc id t f s).state).events,
         (handleExport exc id t f s).attempts ++
           (runScript exc ops (handleExport exc id t f s).state).attempts⟩ := rfl
    rw [hrs]
    dsimp only
    refine ⟨?_, ?_, ?_⟩
    · rw [← List.append_assoc]
      exact rinv
    · intro p hp
      rw [progressValues_append, List.mem_append] at hp
      rcases hp with hp | hp
      · exact hprog1 p hp
      · exact rprog p hp
    · intro o ho
      rcases List.mem_cons.1 ho with rfl | ho'
      · rw [← List.append_assoc, statusHistory_append]
        have hne : statusHistory (id, t, f).1
            (evs ++ (handleExport exc id t f s).events) ≠ [] := by
          intro hnil
          rw [hnil] at hhead1
          cases hhead1
        rw [List.head?_append_of_ne_nil _ hne]
        exact hhead1
      · rw [← List.append_assoc]
        exact rhead o ho'

/-- C10 (amended): starting from an empty queue, a run of export submissions
with distinct job ids gives every job a status history that starts with
`queued` (jobs enter through `handleExport` as queued with progress 0) and
moves only along `queued → processing`, `processing → completed`,
`processing → failed`, and — when a failed job left at the front of the queue
is picked up by a later call — `failed → processing`; every progress write is a
multiple of 10 between 0 and 100, and at rest every queued job is `queued` or
`failed` with such a progress value. -/
theorem exportJob_lifecycle (exc : ExportJob → Option Nat)
    (ops : List (String × String × String)) (hids : (ops.map (·.1)).Nodup) :
    (∀ id, List.Chain' (fun a b => statusStep a b = true)
      (statusHistory id (runScript exc ops ⟨[], false⟩).events)) ∧
    (∀ o ∈ ops, (statusHistory o.1 (runScript exc ops ⟨[], false⟩).events).head? =
      some .queued) ∧
    (∀ p ∈ progressValues (runScript exc ops ⟨[], false⟩).events,
      p % 10 = 0 ∧ p ≤ 100) ∧
    (∀ j ∈ (runScript exc ops ⟨[], false⟩).state.exportQueue,
      (j.status = .queued ∨ j.status = .failed) ∧
      j.progress % 10 = 0 ∧ j.progress ≤ 100) := by
  have hinv0 : SysInv ⟨[], false⟩ [] := by
    refine ⟨rfl, List.nodup_nil, ?_, ?_, ?_⟩
    · intro j hj
      exact absurd hj (List.not_mem_nil j)
    · intro j hj
      exact absurd hj (List.not_mem_nil j)
    · intro id
      exact List.chain'_nil
  obtain ⟨rinv, rprog, rhead⟩ :=
    runScript_inv exc ops ⟨[], false⟩ [] hinv0 hids (fun o _ => rfl)
  rw [List.nil_append] at rinv
  refine ⟨?_, ?_, rprog, ?_⟩
  · intro id
    exact rinv.2.2.2.2 id
  · intro o ho
    have h := rhead o ho
    rwa [List.nil_append] at h
  · intro j hj
    exact rinv.2.2.1 j hj

/-- Concrete instance of C10 (amended) on the `demoScript` run: the history of
the failing-then-retried job follows the amended transition relation, starts
queued, and the progress write 100 observed in the run is a multiple of 10. -/
theorem exportJob_lifecycle_witness :
    List.Chain' (fun a b => statusStep a b = true)
      (statusHistory "export-1001" (runScript demoExc demoScript ⟨[], false⟩).events) ∧
    (statusHistory "export-1001" (runScript demoExc demoScript ⟨[], false⟩).events).head? =
      some .queued ∧
    (100 % 10 = 0 ∧ 100 ≤ 100) :=
  ⟨(exportJob_lifecycle demoExc demoScript (by decide)).1 "export-1001",
   (exportJob_lifecycle demoExc demoScript (by decide)).2.1
     ("export-1001", "clients", "csv") (by decide),
   (exportJob_lifecycle demoExc demoScript (by decide)).2.2.1 100 (by decide)⟩

/-- Counterexample to C10 as stated: the status history of job `export-1001`
in the `demoScript` run is queued, processing, failed, processing, completed —
it contains the transition `failed → processing`, which the claimed relation
(`queued → processing → completed/failed` only) does not allow. -/
theorem lifecycle_transitions_counterexample :
    statusHistory "export-1001" (runScript demoExc demoScript ⟨[], false⟩).events =
      [.queued, .processing, .failed, .processing, .completed] ∧
    ¬ List.Chain' (fun a b => statusStepSpec a b = true)
      (statusHistory "export-1001" (runScript demoExc demoScript ⟨[], false⟩).events) := by
  have h : statusHistory "export-1001" (runScript demoExc demoScript ⟨[], false⟩).events =
      [.queued, .processing, .failed, .processing, .completed] := by decide
  refine ⟨h, ?_⟩
  rw [h]
  intro hc
  have h1 := (List.chain'_cons.1 hc).2
  have h2 := (List.chain'_cons.1 h1).2
  have h3 := (List.chain'_cons.1 h2).1
  exact absurd h3 (by decide)
